import Mathlib

/-!
Shallow embedding of `src/main.c`, a small interactive shell (prompt, `$$`
expansion, whitespace tokenization, redirection parsing, background jobs,
SIGTSTP foreground-only toggle, and the `exit`/`cd`/`status` built-ins).

C strings are lists of characters, C ints are `Int`, the fixed arrays become
Lean lists, and each loop of the C source becomes a structurally recursive
function whose iteration count mirrors the loop bound.  Library calls that the
shell makes (strtok, sprintf, waitpid, the wait-status macros) are modelled by
their documented behaviour on the inputs the shell actually passes.
-/

namespace LinuxShell

/-- C strings are modelled as lists of characters (no terminating NUL unless a
definition says otherwise). -/
abbrev Str := List Char

/-- The NUL character terminating C strings. -/
def nulC : Char := Char.ofNat 0

/-- The delimiter set of the first strtok call in main.c line 174: space or tab. -/
def isWsC (c : Char) : Bool := c = ' ' || c = '\t'

def ltTok : Str := ['<']
def gtTok : Str := ['>']
def ampTok : Str := ['&']
def exitTok : Str := ['e', 'x', 'i', 't']
def cdTok : Str := ['c', 'd']
def statusTok : Str := ['s', 't', 'a', 't', 'u', 's']

/-- Decimal digits of n, as printf %d renders the (non-negative) shell pid. -/
def digitsOf (n : Nat) : Str := Nat.toDigits 10 n

/-- The string a C buffer holds: its characters before the first NUL. -/
def strTakeNull (buf : Str) : Str := buf.takeWhile (fun c => c ≠ nulC)

/-- sprintf with a single int argument (main.c line 168): every `%d` of the format
becomes the decimal pid.  The expansion loop puts exactly one `%d` into a line,
so on lines without a user-written percent sign this is the exact behaviour. -/
def sprintfD (pid : Nat) : Str → Str
  | [] => []
  | '%' :: 'd' :: rest => digitsOf pid ++ sprintfD pid rest
  | c :: rest => c :: sprintfD pid rest

/-- Writing string s plus a NUL terminator at the start of buffer buf, as sprintf
does; bytes past the terminator keep their previous contents. -/
def writeCStr (buf s : Str) : Str := s ++ [nulC] ++ buf.drop (s.length + 1)

/-- main.c lines 157-171: the `$$` expansion loop.  `steps` counts the remaining
iterations (the C loop runs `i` from 0 to nread-1 over the mutating buffer),
`expand` is the flag of line 157.  Note the source never resets `expand` to 0 on
a character other than a dollar sign. -/
def expandLoop (pid : Nat) : Nat → Nat → Str → Bool → Str
  | 0, _, buf, _ => buf
  | steps + 1, i, buf, expand =>
    if buf.getD i nulC = '$' then
      if expand then
        expandLoop pid steps (i + 1)
          (writeCStr buf (sprintfD pid (((strTakeNull buf).set (i - 1) '%').set i 'd')))
          false
      else expandLoop pid steps (i + 1) buf true
    else expandLoop pid steps (i + 1) buf expand

/-- main.c lines 139-171: after getline and newline-stripping the buffer holds the
input characters followed by NUL and nread is length+1; then the expansion loop
runs and the resulting C string is what tokenization sees. -/
def expandLine (pid : Nat) (input : Str) : Str :=
  strTakeNull (expandLoop pid (input.length + 1) 0 (input ++ [nulC]) false)

/-- Modelled from the spec (§4.1): scan left to right pairing adjacent dollar
signs; each adjacent `$$` pair becomes the decimal pid, every other character
(including a lone trailing dollar) is kept verbatim. -/
def specExpandAdjacent (pid : Nat) : Str → Str
  | [] => []
  | '$' :: '$' :: rest => digitsOf pid ++ specExpandAdjacent pid rest
  | c :: rest => c :: specExpandAdjacent pid rest

/-- The strtok(NULL, " ") loop of main.c line 196: split the remainder on runs of
spaces, dropping empty pieces.  `cur` accumulates the current token reversed. -/
def splitSpAux : Str → Str → List Str
  | cur, [] => if cur = [] then [] else [cur.reverse]
  | cur, c :: rest =>
    if c = ' ' then
      if cur = [] then splitSpAux [] rest else cur.reverse :: splitSpAux [] rest
    else splitSpAux (c :: cur) rest

/-- main.c lines 174-198: tokenization.  The first strtok call uses the delimiter
set " \t" (skip leading space/tab, end the first token at the next space/tab and
consume that one delimiter); every later call uses only " ". -/
def tokenizeC (line : Str) : List Str :=
  if line.dropWhile isWsC = [] then []
  else
    ((line.dropWhile isWsC).takeWhile fun c => !isWsC c) ::
      splitSpAux [] (((line.dropWhile isWsC).dropWhile fun c => !isWsC c).tail)

/-- Modelled from the spec (§4.1): maximal substrings delimited by space or tab
anywhere in the line. -/
def splitWsAux : Str → Str → List Str
  | cur, [] => if cur = [] then [] else [cur.reverse]
  | cur, c :: rest =>
    if isWsC c then
      if cur = [] then splitWsAux [] rest else cur.reverse :: splitWsAux [] rest
    else splitWsAux (c :: cur) rest

/-- Modelled from the spec (§4.1): whitespace splitting with space and tab both
acting as separators everywhere. -/
def splitWs (l : Str) : List Str := splitWsAux [] l

/-- main.c lines 191-195: argIndex starts at the sentinel 1000 and, at the first
`<` or `>`, becomes that operator's position minus one (an int; -1 when the
operator is the first token). -/
def argIndexAux : List Str → Int → Int
  | [], _ => 1000
  | t :: rest, j => if t = ltTok ∨ t = gtTok then j - 1 else argIndexAux rest (j + 1)

/-- Position of the first redirection operator among the tokens, if any (used to
state properties of the builder). -/
def opIdx : List Str → Option Nat
  | [] => none
  | t :: rest => if t = ltTok ∨ t = gtTok then some 0 else (opIdx rest).map (· + 1)

/-- main.c lines 211-219: z is argIndex when a redirection operator was found,
otherwise the last token index i = length-1 (as C ints). -/
def zOf (tokens : List Str) : Int :=
  if argIndexAux tokens 0 = 1000 then (tokens.length : Int) - 1 else argIndexAux tokens 0

/-- main.c lines 222-229: com.args receives arguments[0..z], except that index
j = i is skipped when the last token is "&"; since the skip can only hit j = z,
the stored argv is this contiguous prefix.  `junk` is the indeterminate value
the code reads as arguments[-1] (an out-of-bounds access) when the token list is
empty, making i = -1. -/
def buildArgs (junk : Str) (tokens : List Str) : List Str :=
  if zOf tokens < 0 then []
  else if zOf tokens = (tokens.length : Int) - 1 ∧ tokens.getLastD junk = ampTok then
    tokens.take (zOf tokens).toNat
  else tokens.take ((zOf tokens).toNat + 1)

/-- main.c lines 232-241: one pass with j from 0 to i-1; whenever arguments[j] is
`<` the next token overwrites com.input, whenever it is `>` the next token
overwrites com.output.  `steps` is the number of remaining iterations. -/
def redirAux (tokens : List Str) : Nat → Nat → Str → Str → Str × Str
  | 0, _, inp, out => (inp, out)
  | steps + 1, j, inp, out =>
    redirAux tokens steps (j + 1)
      (if tokens.getD j [] = ltTok then tokens.getD (j + 1) [] else inp)
      (if tokens.getD j [] = gtTok then tokens.getD (j + 1) [] else out)

/-- The input/output redirection paths recorded for a token list (loop bound
j < i with i = length-1, so length-1 iterations; none when length is 0). -/
def redirs (tokens : List Str) : Str × Str :=
  redirAux tokens (tokens.length - 1) 0 [] []

/-- The com structure of main.c lines 23-29 as far as dispatch consults it.
args lists the non-NULL prefix of com.args; input/output are empty when unset. -/
structure Com where
  args : List Str
  input : Str
  output : Str
  background : Bool
  numArgs : Int
deriving DecidableEq

/-- main.c lines 200-246: build the command from the token list.  background is
set iff the last token (arguments[-1], i.e. `junk`, for an empty list) is "&". -/
def buildCom (junk : Str) (tokens : List Str) : Com :=
  { args := buildArgs junk tokens
    input := (redirs tokens).1
    output := (redirs tokens).2
    background := tokens.getLastD junk == ampTok
    numArgs := zOf tokens + 1 }

/-- Last index p in [j, j+steps) with tokens[p] = op (helper for stating what the
redirection pass computes). -/
def lastOcc (op : Str) (tokens : List Str) : Nat → Nat → Option Nat
  | _, 0 => none
  | j, steps + 1 =>
    match lastOcc op tokens (j + 1) steps with
    | some p => some p
    | none => if tokens.getD j [] = op then some j else none

/-- Modelled from the amended claim: the token right after the last occurrence of
op strictly before the final token; empty when there is none. -/
def specLastRedir (op : Str) (tokens : List Str) : Str :=
  match lastOcc op tokens 0 (tokens.length - 1) with
  | some p => tokens.getD (p + 1) []
  | none => []

/-- Modelled from the amended claim: argv is the prefix before the first
redirection operator; with no operator it is all tokens, minus a final "&". -/
def specArgv (junk : Str) (tokens : List Str) : List Str :=
  match opIdx tokens with
  | some p => tokens.take p
  | none => if tokens.getLastD junk = ampTok then tokens.dropLast else tokens

/-- Where dispatch of a built command ends up (main.c lines 243-307).  nullDeref
marks the undefined strcmp(com.args[0], "exit") call made with args[0] NULL. -/
inductive Dispatch where
  | emptyGuard
  | nullDeref
  | exitB
  | cdB (target : Option (Option Str))
  | statusB
  | external (argv0 : Str) (background : Bool)
deriving DecidableEq

/-- main.c lines 243-307: the numArgs == 0 guard, the foreground-only forcing of
com.background, then the built-in comparisons and the fork/exec path.  For `cd`,
`cdB (some t)` records a chdir call with pointer t (`none` inside = a NULL
pointer), and `cdB none` records that no chdir call is made at all. -/
def dispatch (home : Option Str) (fgOnly : Bool) (c : Com) : Dispatch :=
  if c.numArgs = 0 then .emptyGuard
  else
    let bg : Bool := if fgOnly then false else c.background
    match c.args.get? 0 with
    | none => .nullDeref
    | some a0 =>
      if a0 = exitTok then .exitB
      else if a0 = cdTok then
        if c.numArgs = 1 then .cdB (some home)
        else if c.numArgs = 2 then .cdB (some (c.args.get? 1))
        else .cdB none
      else if a0 = statusTok then .statusB
      else .external a0 bg

/-- Outcome of one loop iteration for a given input line (main.c runShell).
oobEmpty marks the iteration of an empty token list, where line 202 evaluates
strcmp(arguments[-1], "&") on an out-of-bounds, uninitialized array slot before
the numArgs == 0 guard returns; the payload is the comparison's junk outcome. -/
inductive IterResult where
  | commentLine
  | oobEmpty (bgJunk : Bool)
  | dispatched (d : Dispatch)
deriving DecidableEq

/-- One runShell iteration from the raw input line: expansion, tokenization, the
first-token `#` comment check of lines 180-189, then build and dispatch. -/
def shellIterate (pid : Nat) (junk : Str) (home : Option Str) (fgOnly : Bool)
    (line : Str) : IterResult :=
  match tokenizeC (expandLine pid line) with
  | [] => .oobEmpty ((buildCom junk []).background)
  | t0 :: rest =>
    if t0.headD ' ' = '#' then .commentLine
    else .dispatched (dispatch home fgOnly (buildCom junk (t0 :: rest)))

/-- Only the fork/exec path of main.c line 307 creates a process. -/
def createsProcess : IterResult → Bool
  | .dispatched (.external _ _) => true
  | _ => false

/-- Only the blocking foreground wait of main.c line 369 writes lfStatus. -/
def updatesLfStatus : IterResult → Bool
  | .dispatched (.external _ bg) => !bg
  | _ => false

/-- Whether the iteration evaluated the out-of-bounds arguments[-1] read. -/
def readsOutOfBounds : IterResult → Bool
  | .oobEmpty _ => true
  | _ => false

/-- main.c line 18: lfStatus starts at the sentinel -1234 meaning that no
foreground command has completed yet. -/
def lfStatusInit : Int := -1234

/-- WIFEXITED(status): the low seven bits are zero. -/
def wifexited (s : Int) : Bool := decide (s % 128 = 0)

/-- WEXITSTATUS(status): bits 8-15. -/
def wexitstatus (s : Int) : Int := s / 256 % 256

/-- WTERMSIG(status): the low seven bits. -/
def wtermsig (s : Int) : Int := s % 128

/-- WIFSIGNALED(status): the low seven bits name a real signal (1..126). -/
def wifsignaled (s : Int) : Bool := decide (1 ≤ s % 128) && decide (s % 128 ≤ 126)

/-- What the status built-in prints (main.c lines 286-305). -/
inductive StatusOut where
  | exitVal (n : Int)
  | termSig (n : Int)
deriving DecidableEq

/-- main.c lines 286-305: the status built-in reads lfStatus and prints either an
exit value or a terminating signal; it returns the record printed together with
the (unchanged) lfStatus. -/
def statusStep (lf : Int) : StatusOut × Int :=
  (if lf = lfStatusInit then .exitVal 0
   else if wifexited lf then .exitVal (wexitstatus lf)
   else .termSig (wtermsig lf), lf)

/-- Linux wait-status encoding, the platform the shell runs on: a child calling
exit(k) is reported as k shifted left by eight bits. -/
def mkExitStatus (k : Int) : Int := 256 * k

/-- Linux wait-status encoding: a child killed by signal n is reported as n. -/
def mkSigStatus (n : Int) : Int := n

/-- The two globals of main.c lines 16-17 shared with the SIGTSTP handler. -/
structure SigState where
  foregroundOnly : Bool
  sigTSTPChange : Bool
deriving DecidableEq

/-- main.c lines 66-76: the SIGTSTP handler flips foregroundOnly and sets
sigTSTPChange. -/
def tstpHandler (s : SigState) : SigState :=
  { foregroundOnly := !s.foregroundOnly, sigTSTPChange := true }

/-- The two mode-change notices of main.c lines 93 and 98. -/
inductive Notice where
  | entering
  | exiting
deriving DecidableEq

/-- main.c lines 92-101: at the start of an iteration, if sigTSTPChange is set,
print the notice matching foregroundOnly and clear the flag. -/
def iterCheck (s : SigState) : List Notice × SigState :=
  if s.sigTSTPChange && s.foregroundOnly then
    ([.entering], { s with sigTSTPChange := false })
  else if s.sigTSTPChange && !s.foregroundOnly then
    ([.exiting], { s with sigTSTPChange := false })
  else ([], s)

/-- Events seen by the signal-mode state: an asynchronous SIGTSTP delivery, or
the main loop reaching the start of an iteration. -/
inductive Ev where
  | toggle
  | iterStart
deriving DecidableEq

/-- Run a sequence of toggle/iteration events from a signal-mode state,
collecting every printed notice in order. -/
def runEvs : List Ev → SigState → List Notice × SigState
  | [], s => ([], s)
  | .toggle :: r, s => runEvs r (tstpHandler s)
  | .iterStart :: r, s =>
    let p := iterCheck s
    let q := runEvs r p.2
    (p.1 ++ q.1, q.2)

/-- State of one child process as the OS process table sees it: still running, a
zombie holding its wait status, or already reaped. -/
inductive Proc where
  | running
  | zombie (st : Int)
  | reaped
deriving DecidableEq

/-- The process table, pid to state; pids absent from it behave as reaped
(waitpid fails with ECHILD). -/
abbrev PTab := List (Nat × Proc)

def ptGet (pt : PTab) (pid : Nat) : Proc := (pt.lookup pid).getD .reaped

def ptReap (pt : PTab) (pid : Nat) : PTab :=
  pt.map fun e => if e.1 = pid then (e.1, Proc.reaped) else e

/-- waitpid(pid, &status, WNOHANG): 0 while the child runs; the pid (reaping the
child and writing its status) for a zombie; -1 with the status variable left
untouched when there is no such child anymore. -/
def waitpidNohang (pt : PTab) (pid : Nat) : Int × Option Int × PTab :=
  match ptGet pt pid with
  | .running => (0, none, pt)
  | .zombie st => ((pid : Int), some st, ptReap pt pid)
  | .reaped => (-1, none, pt)

/-- The completion and start notices printed for background jobs
(main.c lines 127, 132, 357). -/
inductive Msg where
  | started (pid : Nat)
  | bgDone (pid : Nat) (exitVal : Int)
  | bgSignal (pid : Nat) (sig : Int)
deriving DecidableEq

/-- main.c lines 117-137: the background sweep over the bgRunning array.  cs is
the current value of the local childStatus, which the source never initializes:
a slot whose waitpid returns nonzero without writing a status (the -1/ECHILD
case) is judged by this stale value. -/
def sweepAux : List Nat → PTab → Int → List Msg × List Nat × PTab
  | [], pt, _ => ([], [], pt)
  | slot :: rest, pt, cs =>
    if slot = 0 then
      let r := sweepAux rest pt cs
      (r.1, 0 :: r.2.1, r.2.2)
    else
      let w := waitpidNohang pt slot
      let cs1 := w.2.1.getD cs
      if w.1 ≠ 0 then
        if wifexited cs1 then
          let r := sweepAux rest w.2.2 cs1
          (.bgDone slot (wexitstatus cs1) :: r.1, 0 :: r.2.1, r.2.2)
        else if wifsignaled cs1 then
          let r := sweepAux rest w.2.2 cs1
          (.bgSignal slot (wtermsig cs1) :: r.1, 0 :: r.2.1, r.2.2)
        else
          let r := sweepAux rest w.2.2 cs1
          (r.1, slot :: r.2.1, r.2.2)
      else
        let r := sweepAux rest w.2.2 cs1
        (r.1, slot :: r.2.1, r.2.2)

/-- The per-iteration sweep: messages printed, the updated registry, the updated
process table.  garbage is the indeterminate initial childStatus. -/
def sweep (reg : List Nat) (pt : PTab) (garbage : Int) : List Msg × List Nat × PTab :=
  sweepAux reg pt garbage

/-- main.c lines 360-365: store the pid in the first empty bgRunning slot; a full
registry silently drops it. -/
def registerPid : List Nat → Nat → List Nat
  | [], _ => []
  | s :: rest, pid => if s = 0 then pid :: rest else s :: registerPid rest pid

/-- main.c lines 355-367: the parent path for a background command: print the
start notice, register the pid, then one WNOHANG waitpid whose status (bgStatus)
is never examined and whose reaping is not reflected in the registry. -/
def spawnBgParent (reg : List Nat) (pt : PTab) (pid : Nat) : List Msg × List Nat × PTab :=
  ([.started pid], registerPid reg pid, (waitpidNohang pt pid).2.2)

/-- C1: with shell pid 42, the line consisting of dollar, letter a, dollar — which
contains no adjacent `$$` pair and so, per the claim, must pass through expansion
unchanged — is instead turned into dollar followed by the pid digits: the
expansion loop pairs the two non-adjacent dollars and destroys the character
between them, because the expand flag is never reset on other characters.  The
spec-side adjacent-pair expansion leaves the line unchanged. -/
theorem c1_expansion_eval :
    expandLine 42 ['$', 'a', '$'] = ['$', '4', '2']
    ∧ specExpandAdjacent 42 ['$', 'a', '$'] = ['$', 'a', '$'] := by decide

/-- C2 counterexample: for the token sequence echo, `&`, hi the built argv does
contain the background-marker token `&` (it is not the final token, so the copy
loop keeps it), refuting the claim that argv never contains it. -/
theorem c2_counterexample :
    ampTok ∈ (buildCom [] [['e', 'c', 'h', 'o'], ampTok, ['h', 'i']]).args := by decide

set_option maxRecDepth 100000 in
/-- C3: a background child (pid 7) that has already exited with value 5 (wait
status 1280) when the parent runs its post-fork path.  The parent's single
WNOHANG wait reaps the child silently — no completion notice — yet leaves pid 7
in the registry; the next sweep's waitpid then fails (the child is already
reaped) and prints a completion notice computed from the uninitialized
childStatus (here 0), reporting exit value 0 instead of the actual 5. -/
theorem c3_background_race_eval :
    (spawnBgParent (List.replicate 1000 0) [(7, Proc.zombie 1280)] 7).1 = [Msg.started 7]
    ∧ (spawnBgParent (List.replicate 1000 0) [(7, Proc.zombie 1280)] 7).2.1
        = 7 :: List.replicate 999 0
    ∧ (spawnBgParent (List.replicate 1000 0) [(7, Proc.zombie 1280)] 7).2.2
        = [(7, Proc.reaped)]
    ∧ wexitstatus 1280 = 5
    ∧ (sweep (7 :: List.replicate 999 0) [(7, Proc.reaped)] 0).1 = [Msg.bgDone 7 0]
    ∧ (sweep (7 :: List.replicate 999 0) [(7, Proc.reaped)] 0).2.1
        = List.replicate 1000 0 := by decide

/-- C6 counterexample: two SIGTSTP deliveries between iterations produce one
single notice at the next iteration start (and a spurious exiting notice at
that: the mode was never announced as entered), not one notice per toggle. -/
theorem c6_counterexample :
    (runEvs [Ev.toggle, Ev.toggle, Ev.iterStart] ⟨false, false⟩).1 = [Notice.exiting]
    ∧ (runEvs [Ev.toggle, Ev.toggle, Ev.iterStart] ⟨false, false⟩).1.length ≠ 2 := by
  decide

/-- C7 counterexample: `cd /tmp x` has numArgs 3, so neither branch of the cd
built-in runs and no chdir call is made at all, refuting the claim that the
first argument is used as the target. -/
theorem c7_counterexample :
    dispatch (some ['/', 'h', 'o', 'm', 'e']) false
      (buildCom [] [cdTok, ['/', 't', 'm', 'p'], ['x']]) = .cdB none
    ∧ Dispatch.cdB none ≠ .cdB (some (some ['/', 't', 'm', 'p'])) := by decide

/-- C8: a line of two spaces tokenizes to nothing, and the iteration then
evaluates strcmp(arguments[-1], "&") — an out-of-bounds read of an uninitialized
stack slot — before the numArgs == 0 guard returns; this is undefined behaviour,
not the silent consumption the claim states (though no process is created and
lfStatus is untouched when the read happens to yield a valid string).  The
comment-line half of the claim does hold: a `#` first token returns early with
no process and no status change. -/
theorem c8_empty_line_eval :
    readsOutOfBounds (shellIterate 42 [] none false [' ', ' ']) = true
    ∧ createsProcess (shellIterate 42 [] none false [' ', ' ']) = false
    ∧ updatesLfStatus (shellIterate 42 [] none false [' ', ' ']) = false
    ∧ shellIterate 42 [] none false [' ', '#', 'h', 'i'] = .commentLine
    ∧ createsProcess (shellIterate 42 [] none false ['#', 'x']) = false
    ∧ updatesLfStatus (shellIterate 42 [] none false ['#', 'x']) = false := by decide

/-- C9 counterexample: on the line a, space, b, tab, c the tokenizer yields the
two tokens a and b-tab-c — the tab after the first token is not a separator,
because the later strtok calls pass only " " — while the claimed space-or-tab
splitting yields three tokens. -/
theorem c9_counterexample :
    tokenizeC ['a', ' ', 'b', '\t', 'c'] ≠ splitWs ['a', ' ', 'b', '\t', 'c']
    ∧ tokenizeC ['a', ' ', 'b', '\t', 'c'] = [['a'], ['b', '\t', 'c']]
    ∧ splitWs ['a', ' ', 'b', '\t', 'c'] = [['a'], ['b'], ['c']] := by decide

/-- C10: the line consisting solely of `&` is NOT rejected by the numArgs == 0
guard: the builder records numArgs = 1 while the copy loop skips the lone token,
so args[0] stays NULL and dispatch reaches strcmp(com.args[0], "exit") with a
null pointer — refuting the claim that the guard rejects every token sequence
leaving argv[0] unset. -/
theorem c10_lone_ampersand_eval :
    (buildCom [] [ampTok]).numArgs = 1
    ∧ (buildCom [] [ampTok]).args.get? 0 = none
    ∧ shellIterate 42 [] none false ['&'] = .dispatched .nullDeref := by decide

theorem dispatch_of_args0 (home : Option Str) (fg : Bool) (c : Com) (a0 : Str)
    (h0 : c.args.get? 0 = some a0) (hn0 : c.numArgs ≠ 0) :
    dispatch home fg c =
      (if a0 = exitTok then .exitB
       else if a0 = cdTok then
         if c.numArgs = 1 then .cdB (some home)
         else if c.numArgs = 2 then .cdB (some (c.args.get? 1))
         else .cdB none
       else if a0 = statusTok then .statusB
       else .external a0 (if fg then false else c.background)) := by
  unfold dispatch
  rw [if_neg hn0, h0]

/-- C4: a command whose argv[0] is "status" dispatches to the status built-in
(never to the fork/exec path); before any foreground command has completed
(lfStatus still the sentinel) the built-in prints exit value 0; after a
foreground child exited with code k it prints exit value k; after a foreground
child was killed by signal n it prints terminated-by-signal n; and the built-in
leaves the recorded status unchanged. -/
theorem c4_status_builtin (home : Option Str) (fg : Bool) (c : Com) (k n lf : Int)
    (h0 : c.args.get? 0 = some statusTok) (hn0 : c.numArgs ≠ 0)
    (hk0 : 0 ≤ k) (hk : k < 256) (hn1 : 1 ≤ n) (hn2 : n ≤ 126) :
    dispatch home fg c = .statusB
    ∧ statusStep lfStatusInit = (.exitVal 0, lfStatusInit)
    ∧ statusStep (mkExitStatus k) = (.exitVal k, mkExitStatus k)
    ∧ statusStep (mkSigStatus n) = (.termSig n, mkSigStatus n)
    ∧ (statusStep lf).2 = lf := by
  refine ⟨?_, by decide, ?_, ?_, rfl⟩
  · rw [dispatch_of_args0 home fg c statusTok h0 hn0]
    rw [if_neg (by decide), if_neg (by decide), if_pos rfl]
  · have h1 : mkExitStatus k ≠ lfStatusInit := by
      simp only [mkExitStatus, lfStatusInit]
      omega
    have h2 : wifexited (mkExitStatus k) = true := by
      simp only [mkExitStatus, wifexited, decide_eq_true_eq]
      omega
    have h3 : wexitstatus (mkExitStatus k) = k := by
      simp only [mkExitStatus, wexitstatus]
      rw [Int.mul_ediv_cancel_left _ (by norm_num : (256 : Int) ≠ 0)]
      omega
    simp [statusStep, h1, h2, h3]
  · have h1 : mkSigStatus n ≠ lfStatusInit := by
      simp only [mkSigStatus, lfStatusInit]
      omega
    have h2 : wifexited (mkSigStatus n) = false := by
      simp only [mkSigStatus, wifexited, decide_eq_false_iff_not]
      omega
    have h3 : wtermsig (mkSigStatus n) = n := by
      simp only [mkSigStatus, wtermsig]
      omega
    simp [statusStep, h1, h2, h3]

theorem c4_status_builtin_witness :
    (buildCom [] [statusTok]).args.get? 0 = some statusTok
    ∧ (buildCom [] [statusTok]).numArgs ≠ 0
    ∧ (dispatch none false (buildCom [] [statusTok]) = .statusB
       ∧ statusStep lfStatusInit = (.exitVal 0, lfStatusInit)
       ∧ statusStep (mkExitStatus 1) = (.exitVal 1, mkExitStatus 1)
       ∧ statusStep (mkSigStatus 9) = (.termSig 9, mkSigStatus 9)
       ∧ (statusStep 0).2 = 0) :=
  ⟨by decide, by decide,
   c4_status_builtin none false (buildCom [] [statusTok]) 1 9 0 (by decide) (by decide)
     (by decide) (by decide) (by decide) (by decide)⟩

/-- C5: while the interpreter is in foreground-only mode every external command
dispatches with its background flag forced to false — so the parent takes the
blocking foreground wait — regardless of a trailing ampersand; outside the mode
a trailing ampersand yields background execution. -/
theorem c5_foreground_only (junk : Str) (home : Option Str) (tokens : List Str) (a0 : Str)
    (h0 : (buildCom junk tokens).args.get? 0 = some a0)
    (hn0 : (buildCom junk tokens).numArgs ≠ 0)
    (hx : a0 ≠ exitTok) (hc : a0 ≠ cdTok) (hs : a0 ≠ statusTok) :
    dispatch home true (buildCom junk tokens) = .external a0 false
    ∧ (tokens.getLastD junk = ampTok →
        dispatch home false (buildCom junk tokens) = .external a0 true) := by
  constructor
  · rw [dispatch_of_args0 home true _ a0 h0 hn0]
    simp [hx, hc, hs]
  · intro hamp
    rw [dispatch_of_args0 home false _ a0 h0 hn0]
    have hb : (buildCom junk tokens).background = true := by
      show (tokens.getLastD junk == ampTok) = true
      rw [hamp]
      simp
    simp [hx, hc, hs, hb]

theorem c5_foreground_only_witness :
    (buildCom [] [['s','l','e','e','p'], ['5'], ampTok]).args.get? 0
      = some ['s','l','e','e','p']
    ∧ (buildCom [] [['s','l','e','e','p'], ['5'], ampTok]).numArgs ≠ 0
    ∧ (['s','l','e','e','p'] : Str) ≠ exitTok
    ∧ (['s','l','e','e','p'] : Str) ≠ cdTok
    ∧ (['s','l','e','e','p'] : Str) ≠ statusTok
    ∧ (dispatch none true (buildCom [] [['s','l','e','e','p'], ['5'], ampTok])
        = .external ['s','l','e','e','p'] false
       ∧ (([['s','l','e','e','p'], ['5'], ampTok] : List Str).getLastD [] = ampTok →
          dispatch none false (buildCom [] [['s','l','e','e','p'], ['5'], ampTok])
            = .external ['s','l','e','e','p'] true)) :=
  ⟨by decide, by decide, by decide, by decide, by decide,
   c5_foreground_only [] none [['s','l','e','e','p'], ['5'], ampTok] ['s','l','e','e','p']
     (by decide) (by decide) (by decide) (by decide) (by decide)⟩

theorem runEvs_toggle_batch (n : Nat) : ∀ (fg ch : Bool), 1 ≤ n →
    runEvs (List.replicate n Ev.toggle ++ [Ev.iterStart]) ⟨fg, ch⟩ =
      ([cond (xor fg (n % 2 == 1)) Notice.entering Notice.exiting],
       ⟨xor fg (n % 2 == 1), false⟩) := by
  induction n with
  | zero => intro fg ch h; omega
  | succ m ih =>
    intro fg ch h
    rcases Nat.eq_zero_or_pos m with hm | hm
    · subst hm
      cases fg <;> rfl
    · rw [List.replicate_succ]
      show runEvs (List.replicate m Ev.toggle ++ [Ev.iterStart]) ⟨!fg, true⟩ = _
      rw [ih (!fg) true hm]
      have hx : xor (!fg) (m % 2 == 1) = xor fg ((m + 1) % 2 == 1) := by
        by_cases hp : m % 2 = 1
        · have hp1 : (m + 1) % 2 = 0 := by omega
          rw [hp, hp1]
          cases fg <;> rfl
        · have hp0 : m % 2 = 0 := by omega
          have hp1 : (m + 1) % 2 = 1 := by omega
          rw [hp0, hp1]
          cases fg <;> rfl
      rw [hx]

/-- C6 amended: every delivery of the toggle signal flips the mode, and mode
notices appear only at the start of a loop iteration: an iteration start after
n ≥ 1 toggles since the last check prints exactly ONE notice — matching the mode
reached after all n flips — rather than one notice per toggle (so a single
toggle yields exactly one notice, but a batch of several collapses to one). -/
theorem c6_amended (n : Nat) (fg : Bool) (s : SigState) (hn : 1 ≤ n) :
    (tstpHandler s).foregroundOnly = !s.foregroundOnly
    ∧ runEvs (List.replicate n Ev.toggle ++ [Ev.iterStart]) ⟨fg, false⟩ =
        ([cond (xor fg (n % 2 == 1)) Notice.entering Notice.exiting],
         ⟨xor fg (n % 2 == 1), false⟩) :=
  ⟨rfl, runEvs_toggle_batch n fg false hn⟩

theorem c6_amended_witness :
    1 ≤ 2
    ∧ ((tstpHandler ⟨false, false⟩).foregroundOnly
        = !(SigState.mk false false).foregroundOnly
       ∧ runEvs (List.replicate 2 Ev.toggle ++ [Ev.iterStart]) ⟨false, false⟩ =
          ([cond (xor false (2 % 2 == 1)) Notice.entering Notice.exiting],
           ⟨xor false (2 % 2 == 1), false⟩)) :=
  ⟨by decide, c6_amended 2 false ⟨false, false⟩ (by decide)⟩

theorem opIdx_none_of_no_ops : ∀ l : List Str,
    (∀ t ∈ l, ¬(t = ltTok ∨ t = gtTok)) → opIdx l = none := by
  intro l
  induction l with
  | nil => intro _; rfl
  | cons t rest ih =>
    intro h
    unfold opIdx
    rw [if_neg (h t (by simp))]
    rw [ih fun u hu => h u (by simp [hu])]
    rfl

theorem argIndexAux_of_none : ∀ (l : List Str) (s : Int),
    opIdx l = none → argIndexAux l s = 1000 := by
  intro l
  induction l with
  | nil => intro s _; rfl
  | cons t rest ih =>
    intro s h
    unfold opIdx at h
    by_cases hp : t = ltTok ∨ t = gtTok
    · rw [if_pos hp] at h
      exact absurd h (by simp)
    · rw [if_neg hp] at h
      unfold argIndexAux
      rw [if_neg hp]
      exact ih (s + 1) (by
        rcases ho : opIdx rest with _ | k
        · rfl
        · rw [ho] at h
          simp at h)

theorem zOf_of_none (tokens : List Str) (h : opIdx tokens = none) :
    zOf tokens = (tokens.length : Int) - 1 := by
  unfold zOf
  rw [if_pos (argIndexAux_of_none tokens 0 h)]

theorem getLastD_mem {α : Type} : ∀ (l : List α) (d : α), l ≠ [] → l.getLastD d ∈ l := by
  intro l d h
  rw [List.getLastD_eq_getLast?, List.getLast?_eq_getLast l h]
  simp [List.getLast_mem]

theorem buildCom_plain (junk : Str) (tokens : List Str)
    (hops : opIdx tokens = none) (hne : tokens ≠ [])
    (hlast : tokens.getLastD junk ≠ ampTok) :
    (buildCom junk tokens).args = tokens
    ∧ (buildCom junk tokens).numArgs = (tokens.length : Int) := by
  have hz : zOf tokens = (tokens.length : Int) - 1 := zOf_of_none tokens hops
  have hlen : 1 ≤ tokens.length := by
    cases tokens with
    | nil => exact absurd rfl hne
    | cons a l => simp
  constructor
  · show buildArgs junk tokens = tokens
    unfold buildArgs
    rw [if_neg (by omega : ¬ zOf tokens < 0)]
    rw [if_neg (by
      intro hand
      exact hlast hand.2)]
    have ht : (zOf tokens).toNat + 1 = tokens.length := by omega
    rw [ht, List.take_length]
  · show zOf tokens + 1 = (tokens.length : Int)
    omega

/-- C7 amended: the cd built-in with no argument calls chdir on the value of the
home-directory environment variable; with exactly one argument it calls chdir on
that path; with more than one argument it makes no chdir call at all (the
command is a silent no-op, the first argument is NOT used). -/
theorem c7_amended (junk : Str) (home : Option Str) (fg : Bool) (rest : List Str)
    (h : ∀ t ∈ rest, t ≠ ltTok ∧ t ≠ gtTok ∧ t ≠ ampTok) :
    dispatch home fg (buildCom junk (cdTok :: rest)) =
      match rest with
      | [] => .cdB (some home)
      | [p] => .cdB (some (some p))
      | _ => .cdB none := by
  have hops : opIdx (cdTok :: rest) = none := by
    apply opIdx_none_of_no_ops
    intro t ht
    rcases List.mem_cons.mp ht with rfl | ht
    · decide
    · rcases h t ht with ⟨h1, h2, _⟩
      rintro (rfl | rfl)
      · exact h1 rfl
      · exact h2 rfl
  have hlast : (cdTok :: rest).getLastD junk ≠ ampTok := by
    intro hl
    have hm := getLastD_mem (cdTok :: rest) junk (by simp)
    rw [hl] at hm
    rcases List.mem_cons.mp hm with he | hm
    · exact absurd he.symm (by decide)
    · exact (h _ hm).2.2 rfl
  obtain ⟨harg, hnum⟩ := buildCom_plain junk (cdTok :: rest) hops (by simp) hlast
  have h0 : (buildCom junk (cdTok :: rest)).args.get? 0 = some cdTok := by
    rw [harg]; rfl
  have hn0 : (buildCom junk (cdTok :: rest)).numArgs ≠ 0 := by
    rw [hnum]
    simp only [List.length_cons]
    omega
  rw [dispatch_of_args0 home fg _ cdTok h0 hn0]
  rw [if_neg (by decide), if_pos rfl]
  cases rest with
  | nil =>
    rw [if_pos (by rw [hnum]; rfl)]
  | cons p rest2 =>
    cases rest2 with
    | nil =>
      rw [if_neg (by rw [hnum]; simp only [List.length_cons, List.length_nil]; omega)]
      rw [if_pos (by rw [hnum]; simp only [List.length_cons, List.length_nil]; omega)]
      rw [harg]
      rfl
    | cons q rest3 =>
      have hlen : (buildCom junk (cdTok :: p :: q :: rest3)).numArgs
          = (rest3.length : Int) + 3 := by
        rw [hnum]
        simp only [List.length_cons]
        push_cast
        ring
      rw [if_neg (by rw [hlen]; omega), if_neg (by rw [hlen]; omega)]

theorem c7_amended_witness :
    (∀ t ∈ ([['/','t','m','p'], ['x']] : List Str),
        t ≠ ltTok ∧ t ≠ gtTok ∧ t ≠ ampTok)
    ∧ dispatch (some ['/','h']) false
        (buildCom [] (cdTok :: [['/','t','m','p'], ['x']])) = .cdB none :=
  ⟨by decide, c7_amended [] (some ['/','h']) false [['/','t','m','p'], ['x']] (by decide)⟩

theorem splitSpAux_eq_splitWsAux : ∀ (l : Str) (cur : Str),
    (∀ c ∈ l, c ≠ '\t') → splitSpAux cur l = splitWsAux cur l := by
  intro l
  induction l with
  | nil => intro cur _; rfl
  | cons c rest ih =>
    intro cur h
    have hct : c ≠ '\t' := h c (by simp)
    have hrest : ∀ d ∈ rest, d ≠ '\t' := fun d hd => h d (by simp [hd])
    by_cases hc : c = ' '
    · have hw : isWsC c = true := by simp [isWsC, hc]
      rw [splitSpAux, splitWsAux]
      rw [if_pos hc, if_pos hw]
      by_cases hcur : cur = []
      · rw [if_pos hcur, if_pos hcur, ih [] hrest]
      · rw [if_neg hcur, if_neg hcur, ih [] hrest]
    · have hw : isWsC c = false := by simp [isWsC, hc, hct]
      rw [splitSpAux, splitWsAux]
      rw [if_neg hc, if_neg (by simp [hw])]
      exact ih (c :: cur) hrest

theorem dropWhile_head_false {α : Type} (p : α → Bool) :
    ∀ (l : List α) (d : α) (t : List α), l.dropWhile p = d :: t → p d = false := by
  intro l
  induction l with
  | nil => intro d t h; simp [List.dropWhile] at h
  | cons c rest ih =>
    intro d t h
    rw [List.dropWhile_cons] at h
    by_cases hp : p c = true
    · rw [if_pos hp] at h
      exact ih d t h
    · rw [if_neg hp] at h
      injection h with h1 h2
      subst h1
      exact Bool.eq_false_iff.mpr hp

theorem mem_of_mem_dropWhile {α : Type} (p : α → Bool) :
    ∀ (l : List α) (a : α), a ∈ l.dropWhile p → a ∈ l := by
  intro l
  induction l with
  | nil => intro a h; simp at h
  | cons c rest ih =>
    intro a h
    rw [List.dropWhile_cons] at h
    by_cases hp : p c = true
    · rw [if_pos hp] at h
      exact List.mem_cons_of_mem c (ih a h)
    · rw [if_neg hp] at h
      exact h

theorem splitWsAux_skip (c : Char) (t : Str) (h : isWsC c = true) :
    splitWsAux [] (c :: t) = splitWsAux [] t := by
  rw [splitWsAux, if_pos h, if_pos rfl]

theorem splitWsAux_token : ∀ (l : Str) (cur : Str), cur ≠ [] →
    splitWsAux cur l =
      (cur.reverse ++ l.takeWhile fun d => !isWsC d) ::
        splitWsAux [] (l.dropWhile fun d => !isWsC d) := by
  intro l
  induction l with
  | nil =>
    intro cur hcur
    rw [splitWsAux, if_neg hcur]
    simp [show splitWsAux ([] : Str) ([] : Str) = [] from rfl]
  | cons c rest ih =>
    intro cur hcur
    rw [List.takeWhile_cons, List.dropWhile_cons]
    by_cases hw : isWsC c = true
    · rw [splitWsAux, if_pos hw, if_neg hcur]
      rw [if_neg (by simp [hw]), if_neg (by simp [hw])]
      rw [splitWsAux_skip c rest hw]
      simp
    · have hw' : isWsC c = false := Bool.eq_false_iff.mpr hw
      rw [splitWsAux, if_neg (by simp [hw'])]
      rw [if_pos (by simp [hw']), if_pos (by simp [hw'])]
      rw [ih (c :: cur) (by simp)]
      simp

/-- C9 amended: every space character anywhere in the line separates tokens, but a
tab does so only around the first token (as leading whitespace or as the first
token's terminating delimiter); in particular on every line containing no tab,
tokenization yields exactly the maximal whitespace-delimited substrings. -/
theorem c9_amended (l : Str) (h : '\t' ∉ l) : tokenizeC l = splitWs l := by
  induction l with
  | nil => rfl
  | cons c rest ih =>
    have hct : c ≠ '\t' := fun he => h (he ▸ List.mem_cons_self c rest)
    have hrest : '\t' ∉ rest := fun hm => h (List.mem_cons_of_mem c hm)
    by_cases hw : isWsC c = true
    · have h1 : tokenizeC (c :: rest) = tokenizeC rest := by
        unfold tokenizeC
        rw [List.dropWhile_cons, if_pos hw]
      rw [h1, ih hrest]
      show splitWs rest = splitWs (c :: rest)
      unfold splitWs
      exact (splitWsAux_skip c rest hw).symm
    · have hw' : isWsC c = false := Bool.eq_false_iff.mpr hw
      have hdw : (c :: rest).dropWhile isWsC = c :: rest := by
        rw [List.dropWhile_cons, if_neg (by simp [hw'])]
      unfold tokenizeC
      rw [hdw, if_neg (by simp)]
      rw [List.takeWhile_cons, if_pos (by simp [hw'])]
      rw [List.dropWhile_cons, if_pos (by simp [hw'])]
      unfold splitWs
      rw [splitWsAux, if_neg (by simp [hw'])]
      rw [splitWsAux_token rest [c] (by simp)]
      simp only [List.reverse_cons, List.reverse_nil, List.nil_append, List.singleton_append]
      refine congrArg _ ?_
      cases hD : rest.dropWhile (fun d => !isWsC d) with
      | nil => rfl
      | cons d t =>
        have hdf : (!isWsC d) = false := dropWhile_head_false _ rest d t hD
        have hdt : isWsC d = true := by
          revert hdf
          cases isWsC d <;> simp
        show splitSpAux [] t = splitWsAux [] (d :: t)
        rw [splitWsAux_skip d t hdt]
        apply splitSpAux_eq_splitWsAux
        intro a ha
        have hmem : a ∈ rest := mem_of_mem_dropWhile _ rest a (by rw [hD]; simp [ha])
        exact fun he => hrest (he ▸ hmem)

theorem c9_amended_witness :
    ('\t' ∉ (['l', 's', ' ', '-', 'a'] : Str))
    ∧ tokenizeC ['l', 's', ' ', '-', 'a'] = splitWs ['l', 's', ' ', '-', 'a'] :=
  ⟨by decide, c9_amended ['l', 's', ' ', '-', 'a'] (by decide)⟩

theorem opIdx_none_mem : ∀ l : List Str, opIdx l = none →
    ∀ t ∈ l, ¬(t = ltTok ∨ t = gtTok) := by
  intro l
  induction l with
  | nil => intro _ t ht; simp at ht
  | cons u rest ih =>
    intro h t ht
    rw [opIdx] at h
    by_cases hp : u = ltTok ∨ u = gtTok
    · rw [if_pos hp] at h
      simp at h
    · rw [if_neg hp] at h
      have ho : opIdx rest = none := by
        rcases hr : opIdx rest with _ | k
        · rfl
        · rw [hr] at h; simp at h
      rcases List.mem_cons.mp ht with rfl | ht2
      · exact hp
      · exact ih ho t ht2

theorem argIndexAux_of_some : ∀ (l : List Str) (k : Nat) (s : Int),
    opIdx l = some k → argIndexAux l s = s + (k : Int) - 1 := by
  intro l
  induction l with
  | nil => intro k s h; simp [opIdx] at h
  | cons t rest ih =>
    intro k s h
    rw [opIdx] at h
    by_cases hp : t = ltTok ∨ t = gtTok
    · rw [if_pos hp] at h
      injection h with h1
      subst h1
      rw [argIndexAux, if_pos hp]
      push_cast
      ring
    · rw [if_neg hp] at h
      rcases hr : opIdx rest with _ | k1
      · rw [hr] at h; simp at h
      · rw [hr] at h
        simp only [Option.map_some'] at h
        injection h with h1
        subst h1
        rw [argIndexAux, if_neg hp, ih k1 (s + 1) hr]
        push_cast
        ring

theorem opIdx_lt_length : ∀ (l : List Str) (k : Nat), opIdx l = some k → k < l.length := by
  intro l
  induction l with
  | nil => intro k h; simp [opIdx] at h
  | cons t rest ih =>
    intro k h
    rw [opIdx] at h
    by_cases hp : t = ltTok ∨ t = gtTok
    · rw [if_pos hp] at h
      injection h with h1
      subst h1
      simp
    · rw [if_neg hp] at h
      rcases hr : opIdx rest with _ | k1
      · rw [hr] at h; simp at h
      · rw [hr] at h
        simp only [Option.map_some'] at h
        injection h with h1
        subst h1
        have := ih k1 hr
        simp only [List.length_cons]
        omega

theorem opIdx_take_no_ops : ∀ (l : List Str) (k : Nat), opIdx l = some k →
    ∀ t ∈ l.take k, ¬(t = ltTok ∨ t = gtTok) := by
  intro l
  induction l with
  | nil => intro k h; simp [opIdx] at h
  | cons u rest ih =>
    intro k h t ht
    rw [opIdx] at h
    by_cases hp : u = ltTok ∨ u = gtTok
    · rw [if_pos hp] at h
      injection h with h1
      subst h1
      simp at ht
    · rw [if_neg hp] at h
      rcases hr : opIdx rest with _ | k1
      · rw [hr] at h; simp at h
      · rw [hr] at h
        simp only [Option.map_some'] at h
        injection h with h1
        subst h1
        rw [List.take_succ_cons] at ht
        rcases List.mem_cons.mp ht with rfl | ht2
        · exact hp
        · exact ih k1 hr t ht2

theorem zOf_of_some (tokens : List Str) (p : Nat) (h : opIdx tokens = some p)
    (hlen : tokens.length ≤ 512) : zOf tokens = (p : Int) - 1 := by
  have ha := argIndexAux_of_some tokens p 0 h
  have hp := opIdx_lt_length tokens p h
  unfold zOf
  rw [ha]
  rw [if_neg (by omega)]
  ring

theorem buildArgs_of_some (junk : Str) (tokens : List Str) (p : Nat)
    (h : opIdx tokens = some p) (hlen : tokens.length ≤ 512) :
    buildArgs junk tokens = tokens.take p := by
  have hz := zOf_of_some tokens p h hlen
  have hp := opIdx_lt_length tokens p h
  unfold buildArgs
  rw [hz]
  by_cases hp0 : p = 0
  · subst hp0
    rw [if_pos (by norm_num)]
    simp
  · rw [if_neg (by omega)]
    rw [if_neg (by
      rintro ⟨h1, _⟩
      omega)]
    have ht : ((p : Int) - 1).toNat + 1 = p := by omega
    rw [ht]

theorem buildArgs_of_none_amp (junk : Str) (tokens : List Str)
    (h : opIdx tokens = none) (hne : tokens ≠ [])
    (hamp : tokens.getLastD junk = ampTok) :
    buildArgs junk tokens = tokens.dropLast := by
  have hz := zOf_of_none tokens h
  have hlen1 : 1 ≤ tokens.length := by
    cases tokens with
    | nil => exact absurd rfl hne
    | cons a l => simp
  unfold buildArgs
  rw [hz]
  rw [if_neg (by omega), if_pos ⟨rfl, hamp⟩]
  have ht : ((tokens.length : Int) - 1).toNat = tokens.length - 1 := by omega
  rw [ht, List.dropLast_eq_take]

theorem redirAux_spec (tokens : List Str) : ∀ (steps j : Nat) (inp out : Str),
    redirAux tokens steps j inp out =
      ((match lastOcc ltTok tokens j steps with
        | some p => tokens.getD (p + 1) []
        | none => inp),
       (match lastOcc gtTok tokens j steps with
        | some p => tokens.getD (p + 1) []
        | none => out)) := by
  intro steps
  induction steps with
  | zero => intro j inp out; rfl
  | succ m ih =>
    intro j inp out
    rw [redirAux, ih (j + 1)]
    simp only [Prod.mk.injEq]
    constructor
    · rw [lastOcc]
      rcases hlo : lastOcc ltTok tokens (j + 1) m with _ | p
      · by_cases hj : tokens.getD j [] = ltTok
        · simp only [if_pos hj]
        · simp only [if_neg hj]
      · rfl
    · rw [lastOcc]
      rcases hlo : lastOcc gtTok tokens (j + 1) m with _ | p
      · by_cases hj : tokens.getD j [] = gtTok
        · simp only [if_pos hj]
        · simp only [if_neg hj]
      · rfl

theorem redirs_spec (tokens : List Str) :
    (redirs tokens).1 = specLastRedir ltTok tokens
    ∧ (redirs tokens).2 = specLastRedir gtTok tokens := by
  unfold redirs specLastRedir
  rw [redirAux_spec tokens (tokens.length - 1) 0 [] []]
  exact ⟨rfl, rfl⟩

/-- C2 amended: the argument vector ends at the first occurrence of a redirection
operator (all of it when there is none, minus a final "&"); argv never contains
a redirection operator; input_path (resp. output_path) is the token immediately
following the last `<` (resp. `>`) occurring strictly before the final token.
The background marker is excluded from argv only when it is the final token — a
`&` in any earlier position stays in argv as an ordinary argument. -/
theorem c2_amended (junk : Str) (tokens : List Str) (hne : tokens ≠ [])
    (hlen : tokens.length ≤ 512) :
    (buildCom junk tokens).args = specArgv junk tokens
    ∧ ltTok ∉ (buildCom junk tokens).args
    ∧ gtTok ∉ (buildCom junk tokens).args
    ∧ (buildCom junk tokens).input = specLastRedir ltTok tokens
    ∧ (buildCom junk tokens).output = specLastRedir gtTok tokens := by
  obtain ⟨hin, hout⟩ := redirs_spec tokens
  have hargs : (buildCom junk tokens).args = specArgv junk tokens := by
    show buildArgs junk tokens = specArgv junk tokens
    unfold specArgv
    rcases ho : opIdx tokens with _ | p
    · by_cases hamp : tokens.getLastD junk = ampTok
      · rw [buildArgs_of_none_amp junk tokens ho hne hamp, if_pos hamp]
      · rw [if_neg hamp]
        exact (buildCom_plain junk tokens ho hne hamp).1
    · exact buildArgs_of_some junk tokens p ho hlen
  refine ⟨hargs, ?_, ?_, hin, hout⟩
  · intro hmem
    rw [hargs] at hmem
    unfold specArgv at hmem
    rcases ho : opIdx tokens with _ | p
    · rw [ho] at hmem
      have hsub : ltTok ∈ tokens := by
        by_cases hamp : tokens.getLastD junk = ampTok
        · rw [if_pos hamp, List.dropLast_eq_take] at hmem
          exact List.take_subset _ _ hmem
        · rw [if_neg hamp] at hmem
          exact hmem
      exact opIdx_none_mem tokens ho ltTok hsub (Or.inl rfl)
    · rw [ho] at hmem
      exact opIdx_take_no_ops tokens p ho ltTok hmem (Or.inl rfl)
  · intro hmem
    rw [hargs] at hmem
    unfold specArgv at hmem
    rcases ho : opIdx tokens with _ | p
    · rw [ho] at hmem
      have hsub : gtTok ∈ tokens := by
        by_cases hamp : tokens.getLastD junk = ampTok
        · rw [if_pos hamp, List.dropLast_eq_take] at hmem
          exact List.take_subset _ _ hmem
        · rw [if_neg hamp] at hmem
          exact hmem
      exact opIdx_none_mem tokens ho gtTok hsub (Or.inr rfl)
    · rw [ho] at hmem
      exact opIdx_take_no_ops tokens p ho gtTok hmem (Or.inr rfl)

theorem c2_amended_witness :
    (([['l', 's'], ampTok, ltTok, ['i', 'n'], gtTok, ['o', 'u', 't']] : List Str) ≠ [])
    ∧ ([['l', 's'], ampTok, ltTok, ['i', 'n'], gtTok, ['o', 'u', 't']] : List Str).length
        ≤ 512
    ∧ ((buildCom [] [['l', 's'], ampTok, ltTok, ['i', 'n'], gtTok, ['o', 'u', 't']]).args
        = specArgv [] [['l', 's'], ampTok, ltTok, ['i', 'n'], gtTok, ['o', 'u', 't']]
       ∧ ltTok ∉ (buildCom []
           [['l', 's'], ampTok, ltTok, ['i', 'n'], gtTok, ['o', 'u', 't']]).args
       ∧ gtTok ∉ (buildCom []
           [['l', 's'], ampTok, ltTok, ['i', 'n'], gtTok, ['o', 'u', 't']]).args
       ∧ (buildCom [] [['l', 's'], ampTok, ltTok, ['i', 'n'], gtTok, ['o', 'u', 't']]).input
           = specLastRedir ltTok [['l', 's'], ampTok, ltTok, ['i', 'n'], gtTok, ['o', 'u', 't']]
       ∧ (buildCom [] [['l', 's'], ampTok, ltTok, ['i', 'n'], gtTok, ['o', 'u', 't']]).output
           = specLastRedir gtTok [['l', 's'], ampTok, ltTok, ['i', 'n'], gtTok, ['o', 'u', 't']]) :=
  ⟨by decide, by decide,
   c2_amended [] [['l', 's'], ampTok, ltTok, ['i', 'n'], gtTok, ['o', 'u', 't']]
     (by decide) (by decide)⟩

end LinuxShell
